import Mathlib

/-!
Verification of the stream-routing broker core (RoundRobin, FanOutSequential,
DynamicFanIn, Retry wrapper) against its natural-language specification.

The Go source is shallowly embedded: each broker loop is translated into a
pure Lean function that, given the sequence of channel interactions it would
observe (inbound transactions, downstream acknowledgment results, close
signals), produces the sequence of externally visible actions it performs
(sends, acknowledgment writes, channel closures).  Machine integers do not
occur on the modelled paths; payloads and channel identities are abstracted
as natural numbers.
-/

/-- A message transaction: a payload batch paired with the identity of its
single-use acknowledgment channel (`message.Transaction` in the source;
the payload is abstracted to a single id since no modelled code inspects
its contents). -/
structure Txn where
  payload : Nat
  ackSink : Nat
deriving DecidableEq, Repr

/-- The error kinds produced by the modelled code paths
(`internal/component` errors plus ad-hoc test errors).
`sendFailed` stands for the terminal retry error
"message failed to reach a target destination". -/
inductive GoError where
  | timeout
  | typeClosed
  | alreadyStarted
  | sendFailed
  | test (n : Nat)
deriving DecidableEq, Repr

/-! ## RoundRobin (src/internal/old/broker/round_robin.go)

`RoundRobin.loop` reads transactions from the inbound channel and forwards
each one, untouched, to the per-output channel selected by a cursor `i`
that starts at 0 and is incremented after each dispatch, wrapping to 0
when it reaches the number of outputs (lines 101-123). -/

/-- The dispatch portion of `RoundRobin.loop`: given the cursor value `i`
and the list of inbound transactions (the channel's contents until it is
closed), produce the list of (output index, transaction) dispatches in
order.  Mirrors lines 101-123 of round_robin.go: `o.outputTSChans[i] <- ts`
then `i++; if i >= len(o.outputTSChans) { i = 0 }`. -/
def RoundRobin.loop (N : Nat) (i : Nat) : List Txn → List (Nat × Txn)
  | [] => []
  | t :: ts => (i, t) :: RoundRobin.loop N (if N ≤ i + 1 then 0 else i + 1) ts

/-- Ceiling division on naturals: `ceilDivNat a b = ⌈a / b⌉`. -/
def ceilDivNat (a b : Nat) : Nat := (a + b - 1) / b

theorem RoundRobin.loop_length (N i : Nat) (ts : List Txn) :
    (RoundRobin.loop N i ts).length = ts.length := by
  induction ts generalizing i with
  | nil => rfl
  | cons t ts ih => simp [RoundRobin.loop, ih]

theorem RoundRobin.cursor_step (N i : Nat) (h : i < N) :
    (if N ≤ i + 1 then 0 else i + 1) = (i + 1) % N := by
  by_cases hle : N ≤ i + 1
  · have : i + 1 = N := by omega
    simp [hle, this, Nat.mod_self]
  · have hlt : i + 1 < N := by omega
    simp [hle, Nat.mod_eq_of_lt hlt]

/-- Closed form of the round-robin dispatch loop: starting from cursor
`i < N`, the `k`-th inbound transaction is dispatched to output
`(i + k) % N`. -/
theorem RoundRobin.loop_eq_zip (N : Nat) (hN : 0 < N) (ts : List Txn) :
    ∀ i, i < N →
      RoundRobin.loop N i ts =
        ((List.range ts.length).map (fun k => (i + k) % N)).zip ts := by
  induction ts with
  | nil => intro i _; rfl
  | cons t ts ih =>
    intro i hi
    have hstep := RoundRobin.cursor_step N i hi
    have hlt : (i + 1) % N < N := Nat.mod_lt _ hN
    have ihs := ih ((i + 1) % N) hlt
    simp only [RoundRobin.loop, hstep, ihs, List.length_cons,
      List.range_succ_eq_map, List.map_cons, List.zip_cons_cons, List.map_map]
    have hhead : (i + 0) % N = i := by simp [Nat.mod_eq_of_lt hi]
    rw [hhead]
    congr 2
    apply List.map_congr_left
    intro k _
    simp only [Function.comp_apply, Nat.mod_add_mod]
    congr 1
    omega

theorem countP_zip_fst {β : Type} (p : Nat → Bool) :
    ∀ (ks : List Nat) (ts : List β), ks.length = ts.length →
      ((ks.zip ts).countP (fun q => p q.1)) = ks.countP p := by
  intro ks
  induction ks with
  | nil => intro ts _; simp
  | cons k ks ih =>
    intro ts hlen
    cases ts with
    | nil => simp at hlen
    | cons t ts =>
      simp only [List.zip_cons_cons, List.countP_cons, ih ts (by simpa using hlen)]

/-- For `j ≤ M` and `j < N`, divisibility of `M - j` by `N` is the same as
`M % N = j`. -/
theorem mod_eq_iff_dvd_sub (M j N : Nat) (hjM : j ≤ M) (hjN : j < N) :
    N ∣ (M - j) ↔ M % N = j := by
  constructor
  · intro ⟨q, hq⟩
    have hM : M = j + N * q := by omega
    subst hM
    simp [Nat.add_mul_mod_self_left, Nat.mod_eq_of_lt hjN]
  · intro h
    have h0 : (M - j) % N = 0 :=
      Nat.sub_mod_eq_zero_of_mod_eq (by rw [h, Nat.mod_eq_of_lt hjN])
    exact Nat.dvd_of_mod_eq_zero h0

/-- The number of `k < M` with `k % N = j` is `(M - j + (N - 1)) / N`,
i.e. `⌈(M - j) / N⌉`. -/
theorem countP_range_mod (N j : Nat) (hN : 0 < N) (hjN : j < N) :
    ∀ M, (List.range M).countP (fun k => k % N == j) = (M - j + (N - 1)) / N := by
  intro M
  induction M with
  | zero =>
    simp only [List.range_zero, List.countP_nil]
    exact (Nat.div_eq_of_lt (by omega)).symm
  | succ M ih =>
    rw [List.range_succ, List.countP_append, ih]
    simp only [List.countP_cons, List.countP_nil]
    by_cases hjM : j ≤ M
    · have harg : M + 1 - j + (N - 1) = (M - j + (N - 1)) + 1 := by omega
      rw [harg, Nat.succ_div]
      have hdvd : (N ∣ M - j + (N - 1) + 1) ↔ (N ∣ M - j) := by
        have : M - j + (N - 1) + 1 = (M - j) + N := by omega
        rw [this]
        exact Nat.dvd_add_self_right
      by_cases hmod : M % N = j
      · have : N ∣ M - j := (mod_eq_iff_dvd_sub M j N hjM hjN).mpr hmod
        rw [if_pos (hdvd.mpr this)]
        simp [hmod]
      · have : ¬ N ∣ M - j := fun hd => hmod ((mod_eq_iff_dvd_sub M j N hjM hjN).mp hd)
        rw [if_neg (fun hd => this (hdvd.mp hd))]
        have : (M % N == j) = false := by simp [hmod]
        simp [this]
    · have hMj : M < j := by omega
      have hMN : M < N := by omega
      have hmod : M % N = M := Nat.mod_eq_of_lt hMN
      have hne : (M % N == j) = false := by simp [hmod]; omega
      rw [Nat.div_eq_of_lt (show M - j + (N - 1) < N by omega),
        Nat.div_eq_of_lt (show M + 1 - j + (N - 1) < N by omega)]
      simp [hne]

/-- Element-wise description of the dispatch loop: the `k`-th dispatched
pair is `((i + k) % N, k-th inbound transaction)`. -/
theorem RoundRobin.loop_getElem (N : Nat) (hN : 0 < N) :
    ∀ (ts : List Txn) (i k : Nat), i < N →
      (RoundRobin.loop N i ts)[k]? = (ts[k]?).map (fun t => ((i + k) % N, t)) := by
  intro ts
  induction ts with
  | nil => intro i k _; simp [RoundRobin.loop]
  | cons t ts ih =>
    intro i k hi
    cases k with
    | zero => simp [RoundRobin.loop, Nat.mod_eq_of_lt hi]
    | succ k =>
      have hstep := RoundRobin.cursor_step N i hi
      have hlt : (i + 1) % N < N := Nat.mod_lt _ hN
      simp only [RoundRobin.loop, List.getElem?_cons_succ, hstep]
      rw [ih ((i + 1) % N) k hlt]
      cases hts : ts[k]? with
      | none => simp
      | some u =>
        simp only [Option.map_some']
        rw [Nat.mod_add_mod]
        have : (i + 1) + k = i + (k + 1) := by omega
        rw [this]

/-- Claim C2: a RoundRobin broker over `N ≥ 1` outputs forwards every
inbound transaction unchanged (same payload and same AckSink) to exactly
one output; the `k`-th transaction goes to output `k % N` (cursor starting
at output 0 and advancing by one modulo `N`); for `M` inbound transactions
output `j` receives exactly `⌈(M - j) / N⌉` of them, and it receives them
in inbound order (its received sequence is a subsequence of the inbound
sequence). -/
theorem RoundRobin_distribution (j0 N : Nat) (txns : List Txn) (hN : 0 < N) :
    ((RoundRobin.loop N 0 txns).map Prod.snd = txns)
    ∧ (∀ k (h : k < (RoundRobin.loop N 0 txns).length),
        ((RoundRobin.loop N 0 txns).get ⟨k, h⟩).1 = k % N)
    ∧ (∀ j, j < N →
        ((RoundRobin.loop N 0 txns).countP (fun p => p.1 == j)) =
          ceilDivNat (txns.length - j) N)
    ∧ (((RoundRobin.loop N 0 txns).filter (fun p => p.1 == j0)).map Prod.snd).Sublist txns := by
  have hzip := RoundRobin.loop_eq_zip N hN txns 0 hN
  have hmap : (RoundRobin.loop N 0 txns).map Prod.snd = txns := by
    rw [hzip]
    have hlen : txns.length ≤ ((List.range txns.length).map (fun k => (0 + k) % N)).length := by
      simp
    rw [List.map_snd_zip _ _ hlen]
  refine ⟨hmap, ?_, ?_, ?_⟩
  · intro k h
    have hk : k < txns.length := by
      rw [RoundRobin.loop_length] at h
      exact h
    have hsome := RoundRobin.loop_getElem N hN txns 0 k hN
    rw [List.getElem?_eq_getElem hk] at hsome
    rw [List.get_eq_getElem]
    have h2 : (RoundRobin.loop N 0 txns)[k]? = some ((RoundRobin.loop N 0 txns)[k]) :=
      List.getElem?_eq_getElem h
    rw [h2] at hsome
    simp only [Option.map_some'] at hsome
    rw [Option.some_inj] at hsome
    rw [hsome]
    simp
  · intro j hj
    rw [hzip, countP_zip_fst (fun n => n == j) _ _ (by simp)]
    rw [List.countP_map]
    have : ((fun n => n == j) ∘ fun k => (0 + k) % N) = (fun k => k % N == j) := by
      funext k
      simp
    rw [this, countP_range_mod N j hN hj txns.length]
    unfold ceilDivNat
    congr 1
    omega
  · have h1 : (((RoundRobin.loop N 0 txns).filter (fun p => p.1 == j0)).map Prod.snd).Sublist
        ((RoundRobin.loop N 0 txns).map Prod.snd) :=
      ((RoundRobin.loop N 0 txns).filter_sublist).map Prod.snd
    rwa [hmap] at h1

/-- Witness for C2: evaluating the round-robin loop over 2 outputs on a
concrete list of 5 transactions. -/
theorem RoundRobin_distribution_witness :
    (0 < 2) ∧
    (((RoundRobin.loop 2 0 [⟨10, 0⟩, ⟨11, 1⟩, ⟨12, 2⟩, ⟨13, 3⟩, ⟨14, 4⟩]).map Prod.snd =
        [⟨10, 0⟩, ⟨11, 1⟩, ⟨12, 2⟩, ⟨13, 3⟩, ⟨14, 4⟩])
      ∧ (∀ k (h : k < (RoundRobin.loop 2 0 [⟨10, 0⟩, ⟨11, 1⟩, ⟨12, 2⟩, ⟨13, 3⟩, ⟨14, 4⟩]).length),
          ((RoundRobin.loop 2 0 [⟨10, 0⟩, ⟨11, 1⟩, ⟨12, 2⟩, ⟨13, 3⟩, ⟨14, 4⟩]).get ⟨k, h⟩).1 = k % 2)
      ∧ (∀ j, j < 2 →
          ((RoundRobin.loop 2 0 [⟨10, 0⟩, ⟨11, 1⟩, ⟨12, 2⟩, ⟨13, 3⟩, ⟨14, 4⟩]).countP (fun p => p.1 == j)) =
            ceilDivNat (([⟨10, 0⟩, ⟨11, 1⟩, ⟨12, 2⟩, ⟨13, 3⟩, (⟨14, 4⟩ : Txn)].length) - j) 2)
      ∧ ((((RoundRobin.loop 2 0 [⟨10, 0⟩, ⟨11, 1⟩, ⟨12, 2⟩, ⟨13, 3⟩, ⟨14, 4⟩]).filter (fun p => p.1 == 1)).map Prod.snd).Sublist
          [⟨10, 0⟩, ⟨11, 1⟩, ⟨12, 2⟩, ⟨13, 3⟩, ⟨14, 4⟩])) :=
  ⟨by decide, RoundRobin_distribution 1 2 [⟨10, 0⟩, ⟨11, 1⟩, ⟨12, 2⟩, ⟨13, 3⟩, ⟨14, 4⟩] (by decide)⟩

/-! ## Retry wrapper (src/internal/old/output/retry.go)

`Retry.loop` (lines 162-278) consumes inbound transactions, forwards each
one downstream with a freshly created result channel `rChan`, and spawns a
goroutine that drives the per-transaction retry loop (lines 211-276): it
receives a result on the channel; a non-nil result triggers a call to
`backOff.NextBackOff()` — `backoff.Stop` ends the loop with the terminal
error "message failed to reach a target destination" — otherwise the same
payload is resent as `message.NewTransaction(ts.Payload, resChan)` reusing
the same `resChan` (line 263).  A nil result ends the loop with a nil
acknowledgment.  Every `select` also listens on the close-at-leisure
signal and returns — without acknowledging — when it fires.

The backoff policy is external (`cenkalti/backoff` via
`old/util/retries`); with max-retries = K its `NextBackOff` returns a
delay on the first K calls and `Stop` from call K+1 on, which is embedded
here as a call counter compared against K. -/

/-- One interaction observed by the per-transaction retry goroutine on its
result channel: a success acknowledgment, a failure acknowledgment, the
close-at-leisure signal firing while waiting for the result (retry.go line
234), or a failure acknowledgment followed by the close signal firing
during the backoff wait or the resend (lines 258 and 264). -/
inductive DownRes where
  | ok
  | fail (e : GoError)
  | closedSig
  | failThenClosed (e : GoError)
deriving DecidableEq, Repr

/-- How the per-transaction retry loop ended. -/
inductive RetryEnd where
  | ackSuccess
  | ackFailed
  | interrupted
  | stillWaiting
deriving DecidableEq, Repr

/-- Identity of the inbound transaction's AckSink. -/
def inboundSinkId : Nat := 0

/-- Identity of the downstream result channel `rChan` created at line 203
of retry.go for one inbound transaction. -/
def retryChanId : Nat := 1

/-- Observable outcome of the retry loop for one inbound transaction:
the downstream transactions sent (payload, result-channel id) in order,
the values written to the inbound AckSink, and how the loop ended. -/
structure RetryRun where
  sentTxns : List (Nat × Nat)
  acks : List (Option GoError)
  ending : RetryEnd
deriving DecidableEq, Repr

/-- The per-transaction retry goroutine of `Retry.loop` (retry.go lines
211-276).  `K` is the max-retries budget, `p` the transaction payload,
`calls` the number of `NextBackOff` calls made so far, `acc` the
downstream sends made so far.  On `fail`: if `NextBackOff` returns `Stop`
(`K ≤ calls`) the loop breaks with the terminal send-failed error, which
is then written to the inbound AckSink (line 273); otherwise the same
payload is resent with the same result channel (line 263).  On `ok` the
loop breaks and nil is written to the AckSink.  On a close signal the
goroutine returns without writing to the AckSink. -/
def Retry.errLoop (K p : Nat) (calls : Nat) (acc : List (Nat × Nat)) :
    List DownRes → RetryRun
  | [] => ⟨acc, [], RetryEnd.stillWaiting⟩
  | DownRes.closedSig :: _ => ⟨acc, [], RetryEnd.interrupted⟩
  | DownRes.ok :: _ => ⟨acc, [none], RetryEnd.ackSuccess⟩
  | DownRes.failThenClosed _ :: _ =>
      if K ≤ calls then ⟨acc, [some GoError.sendFailed], RetryEnd.ackFailed⟩
      else ⟨acc, [], RetryEnd.interrupted⟩
  | DownRes.fail _ :: rest =>
      if K ≤ calls then ⟨acc, [some GoError.sendFailed], RetryEnd.ackFailed⟩
      else Retry.errLoop K p (calls + 1) (acc ++ [(p, retryChanId)]) rest

/-- Processing of one inbound transaction by `Retry.loop`: the initial
downstream send (line 205) followed by the retry goroutine. -/
def Retry.run (K p : Nat) (results : List DownRes) : RetryRun :=
  Retry.errLoop K p 0 [(p, retryChanId)] results

theorem Retry.errLoop_sends_le (K p : Nat) :
    ∀ (results : List DownRes) (calls : Nat) (acc : List (Nat × Nat)),
      (Retry.errLoop K p calls acc results).sentTxns.length ≤
        acc.length + (K - calls) := by
  intro results
  induction results with
  | nil => intro calls acc; simp [Retry.errLoop]
  | cons r rest ih =>
    intro calls acc
    cases r with
    | ok => simp [Retry.errLoop]
    | closedSig => simp [Retry.errLoop]
    | failThenClosed e =>
      by_cases h : K ≤ calls <;> simp [Retry.errLoop, h]
    | fail e =>
      by_cases h : K ≤ calls
      · simp [Retry.errLoop, h]
      · simp only [Retry.errLoop, if_neg h]
        calc (Retry.errLoop K p (calls + 1) (acc ++ [(p, retryChanId)]) rest).sentTxns.length
            ≤ (acc ++ [(p, retryChanId)]).length + (K - (calls + 1)) := ih (calls + 1) _
          _ ≤ acc.length + (K - calls) := by simp; omega

theorem Retry.errLoop_ackFailed (K p : Nat) :
    ∀ (results : List DownRes) (calls : Nat) (acc : List (Nat × Nat)),
      acc.length = calls + 1 → calls ≤ K →
      (Retry.errLoop K p calls acc results).ending = RetryEnd.ackFailed →
      (Retry.errLoop K p calls acc results).acks = [some GoError.sendFailed]
      ∧ (Retry.errLoop K p calls acc results).sentTxns.length = K + 1 := by
  intro results
  induction results with
  | nil => intro calls acc _ _ h; simp [Retry.errLoop] at h
  | cons r rest ih =>
    intro calls acc hlen hle h
    cases r with
    | ok => simp [Retry.errLoop] at h
    | closedSig => simp [Retry.errLoop] at h
    | failThenClosed e =>
      by_cases hK : K ≤ calls
      · have hcalls : calls = K := by omega
        simp [Retry.errLoop, hK]
        omega
      · simp [Retry.errLoop, hK] at h
    | fail e =>
      by_cases hK : K ≤ calls
      · have hcalls : calls = K := by omega
        simp [Retry.errLoop, hK]
        omega
      · simp only [Retry.errLoop, if_neg hK] at h ⊢
        exact ih (calls + 1) (acc ++ [(p, retryChanId)]) (by simp; omega) (by omega) h

/-- Claim C5: with max-retries = K (K ≥ 1), each inbound transaction causes
at most K + 1 downstream send attempts; when the backoff budget is
exhausted the loop ends with the terminal send-failed error (the message
"message failed to reach a target destination") written to the inbound
AckSink, after exactly K + 1 attempts. -/
theorem Retry_attempts_bounded (K p : Nat) (results : List DownRes) (hK : 0 < K) :
    (Retry.run K p results).sentTxns.length ≤ K + 1
    ∧ ((Retry.run K p results).ending = RetryEnd.ackFailed →
        (Retry.run K p results).acks = [some GoError.sendFailed]
        ∧ (Retry.run K p results).sentTxns.length = K + 1) := by
  constructor
  · have h := Retry.errLoop_sends_le K p results 0 [(p, retryChanId)]
    simp at h
    unfold Retry.run
    omega
  · intro h
    exact Retry.errLoop_ackFailed K p results 0 [(p, retryChanId)] (by simp) (by omega) h

/-- Witness for C5: K = 1 and two consecutive downstream failures give
exactly 2 = K + 1 sends and the terminal send-failed acknowledgment. -/
theorem Retry_attempts_bounded_witness :
    (0 < 1)
    ∧ ((Retry.run 1 7 [DownRes.fail (GoError.test 0), DownRes.fail (GoError.test 1)]).sentTxns.length ≤ 2
      ∧ ((Retry.run 1 7 [DownRes.fail (GoError.test 0), DownRes.fail (GoError.test 1)]).ending = RetryEnd.ackFailed →
          (Retry.run 1 7 [DownRes.fail (GoError.test 0), DownRes.fail (GoError.test 1)]).acks = [some GoError.sendFailed]
          ∧ (Retry.run 1 7 [DownRes.fail (GoError.test 0), DownRes.fail (GoError.test 1)]).sentTxns.length = 2)) :=
  ⟨by decide, Retry_attempts_bounded 1 7 [DownRes.fail (GoError.test 0), DownRes.fail (GoError.test 1)] (by decide)⟩

/-- Claim C6 counterexample: with max-retries 2 and a first downstream
failure, the resend at retry.go line 263 is
`message.NewTransaction(ts.Payload, resChan)` — it reuses the result
channel created at line 203 for the initial send.  The two downstream
sends carry the same acknowledgment channel id, so the second send's
channel is not a new, previously unused one. -/
theorem Retry_resend_chan_not_fresh :
    (Retry.run 2 7 [DownRes.fail (GoError.test 0), DownRes.ok]).sentTxns =
      [(7, retryChanId), (7, retryChanId)]
    ∧ ¬ ((Retry.run 2 7 [DownRes.fail (GoError.test 0), DownRes.ok]).sentTxns.map
          Prod.snd).Nodup := by
  decide

theorem Retry.errLoop_replicate (K p : Nat) :
    ∀ (results : List DownRes) (calls : Nat) (n : Nat),
      (Retry.errLoop K p calls (List.replicate n (p, retryChanId)) results).sentTxns =
        List.replicate
          (Retry.errLoop K p calls (List.replicate n (p, retryChanId)) results).sentTxns.length
          (p, retryChanId) := by
  intro results
  induction results with
  | nil => intro calls n; simp [Retry.errLoop]
  | cons r rest ih =>
    intro calls n
    cases r with
    | ok => simp [Retry.errLoop]
    | closedSig => simp [Retry.errLoop]
    | failThenClosed e =>
      by_cases h : K ≤ calls <;> simp [Retry.errLoop, h]
    | fail e =>
      by_cases h : K ≤ calls
      · simp [Retry.errLoop, h]
      · simp only [Retry.errLoop, if_neg h]
        have hrep : List.replicate n (p, retryChanId) ++ [(p, retryChanId)] =
            List.replicate (n + 1) (p, retryChanId) := by
          rw [List.replicate_succ' n]
        rw [hrep]
        exact ih (calls + 1) (n + 1)

/-- Claim C6 amended: on each failure acknowledgment the same payload is
resent, but every downstream send of one inbound transaction — the
initial one and all resends — carries the one result channel created when
the transaction was first forwarded (fresh with respect to the inbound
AckSink, which has a different identity), not a new channel per resend. -/
theorem Retry_resend_same_payload_same_chan (K p : Nat) (results : List DownRes) :
    (Retry.run K p results).sentTxns =
      List.replicate (Retry.run K p results).sentTxns.length (p, retryChanId)
    ∧ retryChanId ≠ inboundSinkId := by
  constructor
  · have h := Retry.errLoop_replicate K p results 0 1
    simpa [Retry.run, List.replicate] using h
  · decide

/-! ## Generic list-split lemmas used for event-ordering arguments. -/

/-- If `x` occurs neither in `P` nor in `S`, the only way to split
`P ++ x :: S` around an occurrence of `x` is at that occurrence. -/
theorem split_unique {α : Type} {x : α} :
    ∀ (P : List α) (S l₁ l₂ : List α), x ∉ P → x ∉ S →
      P ++ x :: S = l₁ ++ x :: l₂ → l₁ = P ∧ l₂ = S := by
  intro P
  induction P with
  | nil =>
    intro S l₁ l₂ _ hS h
    cases l₁ with
    | nil =>
      simp only [List.nil_append] at h
      injection h with h1 h2
      exact ⟨rfl, h2.symm⟩
    | cons a tl =>
      simp only [List.nil_append, List.cons_append, List.cons.injEq] at h
      exact absurd (h.2 ▸ List.mem_append_right tl (List.mem_cons_self x l₂)) hS
  | cons p P ih =>
    intro S l₁ l₂ hP hS h
    cases l₁ with
    | nil =>
      simp only [List.cons_append, List.nil_append, List.cons.injEq] at h
      exact absurd (h.1 ▸ List.mem_cons_self p P) hP
    | cons a tl =>
      simp only [List.cons_append, List.cons.injEq] at h
      obtain ⟨rfl, h2⟩ := h
      have := ih S tl l₂ (fun hm => hP (List.mem_cons_of_mem _ hm)) hS h2
      exact ⟨by rw [this.1], this.2⟩

/-- If `x` does not occur in the prefix `P`, any split of `P ++ R` around
an occurrence of `x` keeps all of `P` on the left. -/
theorem split_of_not_mem_pre {α : Type} {x : α} :
    ∀ (P : List α) (R l₁ l₂ : List α), x ∉ P →
      P ++ R = l₁ ++ x :: l₂ → ∃ l₃, l₁ = P ++ l₃ ∧ R = l₃ ++ x :: l₂ := by
  intro P
  induction P with
  | nil =>
    intro R l₁ l₂ _ h
    exact ⟨l₁, by simp, by simpa using h⟩
  | cons p P ih =>
    intro R l₁ l₂ hP h
    cases l₁ with
    | nil =>
      simp only [List.cons_append, List.nil_append, List.cons.injEq] at h
      exact absurd (h.1 ▸ List.mem_cons_self p P) hP
    | cons a tl =>
      simp only [List.cons_append, List.cons.injEq] at h
      obtain ⟨rfl, h2⟩ := h
      obtain ⟨l₃, h3, h4⟩ := ih R tl l₂ (fun hm => hP (List.mem_cons_of_mem _ hm)) h2
      exact ⟨l₃, by rw [h3]; rfl, h4⟩

/-- If `x` does not occur in the suffix `R`, any split of `P ++ R` around
an occurrence of `x` keeps all of `R` on the right. -/
theorem split_of_not_mem_suf {α : Type} {x : α} :
    ∀ (P : List α) (R l₁ l₂ : List α), x ∉ R →
      P ++ R = l₁ ++ x :: l₂ → ∃ l₃, l₂ = l₃ ++ R ∧ P = l₁ ++ x :: l₃ := by
  intro P
  induction P with
  | nil =>
    intro R l₁ l₂ hR h
    simp only [List.nil_append] at h
    exact absurd (h ▸ List.mem_append_right l₁ (List.mem_cons_self x l₂)) hR
  | cons p P ih =>
    intro R l₁ l₂ hR h
    cases l₁ with
    | nil =>
      simp only [List.cons_append, List.nil_append, List.cons.injEq] at h
      obtain ⟨rfl, h2⟩ := h
      exact ⟨P, h2.symm, rfl⟩
    | cons a tl =>
      simp only [List.cons_append, List.cons.injEq] at h
      obtain ⟨rfl, h2⟩ := h
      obtain ⟨l₃, h3, h4⟩ := ih R tl l₂ hR h2
      exact ⟨l₃, h3, by rw [h4]; rfl⟩

/-! ## FanOutSequential (src/unnamed/part_002, lines 126-318)

`FanOutSequential.loop` starts `maxInFlight` copies of `sendLoop` (lines
247-294).  Each `sendLoop` iteration takes one inbound transaction and
walks the outputs in index order (`for i := range o.outputTSChans`).  For
each output it repeatedly sends a copy of the payload with a fresh result
channel and waits for the result: a non-nil result retries under the
throttle, a nil result breaks to the next output, and `ctx.Done()` (or an
exhausted throttle, which only happens when the close signal fires since
the throttle is created with `OptCloseChan(o.ctx.Done())`) returns from
`sendLoop` without acknowledging.  After the last output succeeds the
inbound transaction is acknowledged with nil (line 292). -/

/-- Externally visible events of one `sendLoop` pass over one inbound
transaction: a send of the payload copy to output `i`, the receipt of an
acknowledgment result from output `i`, a write to the inbound AckSink, or
the close signal firing. -/
inductive FEv where
  | send (i : Nat)
  | result (i : Nat) (r : Option GoError)
  | ackIn (r : Option GoError)
  | closeFired
deriving DecidableEq, Repr

/-- What one output does for this transaction: acknowledge failure for a
list of attempts and then acknowledge success, or acknowledge failures
until the broker close signal fires. -/
inductive OutScript where
  | succeedAfter (errs : List GoError)
  | closedAfter (errs : List GoError)
deriving DecidableEq, Repr

/-- Whether the script ends in a successful acknowledgment. -/
def OutScript.ok : OutScript → Bool
  | OutScript.succeedAfter _ => true
  | OutScript.closedAfter _ => false

/-- The failed attempts against output `i`: each one is a send followed by
a failure result (part_002 lines 270-288, the path through
`throt.Retry()`). -/
def FanOutSequential.attempts (i : Nat) : List GoError → List FEv
  | [] => []
  | e :: rest => FEv.send i :: FEv.result i (some e) :: FanOutSequential.attempts i rest

/-- The full interaction with output `i` under its script: failed attempts
followed either by a successful send/result pair (`break sendLoop`) or by
the close signal ending the pass. -/
def FanOutSequential.outputBlock (i : Nat) : OutScript → List FEv
  | OutScript.succeedAfter errs =>
      FanOutSequential.attempts i errs ++ [FEv.send i, FEv.result i none]
  | OutScript.closedAfter errs =>
      FanOutSequential.attempts i errs ++ [FEv.closeFired]

/-- The `for i := range o.outputTSChans` walk of `sendLoop` (part_002
lines 262-292), starting at output `i` with `n` outputs remaining: each
output is handled to completion before the next is touched; when every
output has succeeded the inbound transaction is acknowledged with nil;
when an output's interaction ends with the close signal the pass returns
without acknowledging. -/
def FanOutSequential.sendOne (scripts : Nat → OutScript) : Nat → Nat → List FEv
  | _, 0 => [FEv.ackIn none]
  | i, n + 1 =>
      if (scripts i).ok
      then FanOutSequential.outputBlock i (scripts i) ++ FanOutSequential.sendOne scripts (i + 1) n
      else FanOutSequential.outputBlock i (scripts i)

/-- One inbound transaction through a FanOutSequential broker with `N`
outputs whose behaviours are given by `scripts`. -/
def FanOutSequential.run (N : Nat) (scripts : Nat → OutScript) : List FEv :=
  FanOutSequential.sendOne scripts 0 N

/-- Events of the attempts against output `i` are sends to `i` or failure
results from `i`. -/
theorem FanOutSequential.mem_attempts (i : Nat) :
    ∀ (errs : List GoError) (ev : FEv), ev ∈ FanOutSequential.attempts i errs →
      ev = FEv.send i ∨ ∃ e, ev = FEv.result i (some e) := by
  intro errs
  induction errs with
  | nil => intro ev h; simp [FanOutSequential.attempts] at h
  | cons e rest ih =>
    intro ev h
    simp only [FanOutSequential.attempts, List.mem_cons] at h
    rcases h with rfl | rfl | h
    · exact Or.inl rfl
    · exact Or.inr ⟨e, rfl⟩
    · exact ih ev h

/-- Events of the full interaction with output `i` are sends to `i`,
results from `i`, or the close event. -/
theorem FanOutSequential.mem_outputBlock (i : Nat) (s : OutScript) (ev : FEv) :
    ev ∈ FanOutSequential.outputBlock i s →
      ev = FEv.send i ∨ (∃ r, ev = FEv.result i r) ∨ ev = FEv.closeFired := by
  cases s with
  | succeedAfter errs =>
    intro h
    rw [FanOutSequential.outputBlock] at h
    rcases List.mem_append.mp h with h | h
    · rcases FanOutSequential.mem_attempts i errs ev h with rfl | ⟨e, rfl⟩
      · exact Or.inl rfl
      · exact Or.inr (Or.inl ⟨some e, rfl⟩)
    · simp only [List.mem_cons, List.not_mem_nil, or_false] at h
      rcases h with rfl | rfl
      · exact Or.inl rfl
      · exact Or.inr (Or.inl ⟨none, rfl⟩)
  | closedAfter errs =>
    intro h
    rw [FanOutSequential.outputBlock] at h
    rcases List.mem_append.mp h with h | h
    · rcases FanOutSequential.mem_attempts i errs ev h with rfl | ⟨e, rfl⟩
      · exact Or.inl rfl
      · exact Or.inr (Or.inl ⟨some e, rfl⟩)
    · simp only [List.mem_cons, List.not_mem_nil, or_false] at h
      subst h
      exact Or.inr (Or.inr rfl)

theorem FanOutSequential.send_not_mem_outputBlock (i j : Nat) (s : OutScript)
    (hij : i < j) : FEv.send j ∉ FanOutSequential.outputBlock i s := by
  intro h
  rcases FanOutSequential.mem_outputBlock i s (FEv.send j) h with h1 | ⟨r, h1⟩ | h1
  · injection h1 with h2; omega
  · exact FEv.noConfusion h1
  · exact FEv.noConfusion h1

/-- Strict order: any occurrence of a send to output `j + 1` in a
`sendLoop` pass starting at output `i ≤ j` is preceded by a successful
acknowledgment from output `j`. -/
theorem FanOutSequential.send_after_result (scripts : Nat → OutScript) :
    ∀ (n i j : Nat), i ≤ j → ∀ (l₁ l₂ : List FEv),
      FanOutSequential.sendOne scripts i n = l₁ ++ FEv.send (j + 1) :: l₂ →
      FEv.result j none ∈ l₁ := by
  intro n
  induction n with
  | zero =>
    intro i j _ l₁ l₂ h
    have : FEv.send (j + 1) ∈ [FEv.ackIn none] := by
      rw [show [FEv.ackIn none] = FanOutSequential.sendOne scripts i 0 from rfl, h]
      exact List.mem_append_right l₁ (List.mem_cons_self _ _)
    simp at this
  | succ n ih =>
    intro i j hij l₁ l₂ h
    by_cases hok : (scripts i).ok
    · rw [FanOutSequential.sendOne, if_pos hok] at h
      have hnm : FEv.send (j + 1) ∉ FanOutSequential.outputBlock i (scripts i) :=
        FanOutSequential.send_not_mem_outputBlock i (j + 1) (scripts i) (by omega)
      obtain ⟨l₃, hl₁, hrest⟩ :=
        split_of_not_mem_pre (FanOutSequential.outputBlock i (scripts i)) _ l₁ l₂ hnm h
      by_cases hji : j = i
      · subst hji
        have hmem : FEv.result j none ∈ FanOutSequential.outputBlock j (scripts j) := by
          cases hs : scripts j with
          | succeedAfter errs =>
            simp [FanOutSequential.outputBlock]
          | closedAfter errs =>
            rw [hs] at hok
            simp [OutScript.ok] at hok
        rw [hl₁]
        exact List.mem_append_left l₃ hmem
      · have hij2 : i + 1 ≤ j := by omega
        have := ih (i + 1) j hij2 l₃ l₂ hrest
        rw [hl₁]
        exact List.mem_append_right _ this
    · rw [FanOutSequential.sendOne, if_neg hok] at h
      have : FEv.send (j + 1) ∈ FanOutSequential.outputBlock i (scripts i) := by
        rw [h]
        exact List.mem_append_right l₁ (List.mem_cons_self _ _)
      exact absurd this (FanOutSequential.send_not_mem_outputBlock i (j + 1) (scripts i) (by omega))

theorem FanOutSequential.ackIn_not_mem_outputBlock (i : Nat) (s : OutScript)
    (r : Option GoError) : FEv.ackIn r ∉ FanOutSequential.outputBlock i s := by
  intro h
  rcases FanOutSequential.mem_outputBlock i s (FEv.ackIn r) h with h1 | ⟨r2, h1⟩ | h1
  · exact FEv.noConfusion h1
  · exact FEv.noConfusion h1
  · exact FEv.noConfusion h1

/-- The inbound acknowledgment in a `sendLoop` pass is always nil, is the
final event of the pass, and is preceded by a successful acknowledgment
from every output the pass covers. -/
theorem FanOutSequential.ackIn_after_all (scripts : Nat → OutScript) :
    ∀ (n i : Nat) (r : Option GoError) (l₁ l₂ : List FEv),
      FanOutSequential.sendOne scripts i n = l₁ ++ FEv.ackIn r :: l₂ →
      r = none ∧ l₂ = [] ∧ ∀ k, i ≤ k → k < i + n → FEv.result k none ∈ l₁ := by
  intro n
  induction n with
  | zero =>
    intro i r l₁ l₂ h
    cases l₁ with
    | nil =>
      simp only [FanOutSequential.sendOne, List.nil_append] at h
      injection h with h1 h2
      injection h1 with h1
      exact ⟨h1.symm, h2.symm, by omega⟩
    | cons a tl =>
      simp only [FanOutSequential.sendOne, List.cons_append] at h
      injection h with h1 h2
      exact absurd h2.symm (by simp)
  | succ n ih =>
    intro i r l₁ l₂ h
    by_cases hok : (scripts i).ok
    · rw [FanOutSequential.sendOne, if_pos hok] at h
      obtain ⟨l₃, hl₁, hrest⟩ :=
        split_of_not_mem_pre (FanOutSequential.outputBlock i (scripts i)) _ l₁ l₂
          (FanOutSequential.ackIn_not_mem_outputBlock i (scripts i) r) h
      obtain ⟨hr, hl₂, hall⟩ := ih (i + 1) r l₃ l₂ hrest
      refine ⟨hr, hl₂, ?_⟩
      intro k hk1 hk2
      by_cases hki : k = i
      · subst hki
        have hmem : FEv.result k none ∈ FanOutSequential.outputBlock k (scripts k) := by
          cases hs : scripts k with
          | succeedAfter errs => simp [FanOutSequential.outputBlock]
          | closedAfter errs =>
            rw [hs] at hok
            simp [OutScript.ok] at hok
        rw [hl₁]
        exact List.mem_append_left l₃ hmem
      · rw [hl₁]
        exact List.mem_append_right _ (hall k (by omega) (by omega))
    · rw [FanOutSequential.sendOne, if_neg hok] at h
      have : FEv.ackIn r ∈ FanOutSequential.outputBlock i (scripts i) := by
        rw [h]
        exact List.mem_append_right l₁ (List.mem_cons_self _ _)
      exact absurd this (FanOutSequential.ackIn_not_mem_outputBlock i (scripts i) r)

/-- Claim C3: FanOutSequential attempts outputs in strict index order —
in any run, no send to output `j + 1` occurs before output `j` has
acknowledged success, and the inbound AckSink is acknowledged (with
success) only after every one of the `N` outputs has acknowledged
success. -/
theorem FanOutSequential_strict_order (N : Nat) (scripts : Nat → OutScript) :
    (∀ (j : Nat) (l₁ l₂ : List FEv),
      FanOutSequential.run N scripts = l₁ ++ FEv.send (j + 1) :: l₂ →
      FEv.result j none ∈ l₁)
    ∧ (∀ (r : Option GoError) (l₁ l₂ : List FEv),
      FanOutSequential.run N scripts = l₁ ++ FEv.ackIn r :: l₂ →
      r = none ∧ l₂ = [] ∧ ∀ k, k < N → FEv.result k none ∈ l₁) := by
  constructor
  · intro j l₁ l₂ h
    exact FanOutSequential.send_after_result scripts N 0 j (by omega) l₁ l₂ h
  · intro r l₁ l₂ h
    obtain ⟨hr, hl₂, hall⟩ := FanOutSequential.ackIn_after_all scripts N 0 r l₁ l₂ h
    exact ⟨hr, hl₂, fun k hk => hall k (by omega) (by omega)⟩

/-- Script pair used in the C3 witness: both outputs acknowledge success
immediately. -/
def twoOkScripts : Nat → OutScript := fun _ => OutScript.succeedAfter []

/-- Witness for C3: a concrete two-output run, split at the send to
output 1 and at the inbound acknowledgment. -/
theorem FanOutSequential_strict_order_witness :
    (FEv.result 0 none ∈ [FEv.send 0, FEv.result 0 none])
    ∧ ((none : Option GoError) = none ∧ ([] : List FEv) = []
        ∧ ∀ k, k < 2 → FEv.result k none ∈
            [FEv.send 0, FEv.result 0 none, FEv.send 1, FEv.result 1 none]) :=
  ⟨(FanOutSequential_strict_order 2 twoOkScripts).1 0
      [FEv.send 0, FEv.result 0 none] [FEv.result 1 none, FEv.ackIn none] (by decide),
    (FanOutSequential_strict_order 2 twoOkScripts).2 none
      [FEv.send 0, FEv.result 0 none, FEv.send 1, FEv.result 1 none] [] (by decide)⟩

/-- Predicate: the event is a write to the inbound AckSink. -/
def FEv.isAckIn : FEv → Bool
  | FEv.ackIn _ => true
  | _ => false

/-- Number of values written to the inbound transaction's AckSink during a
`sendLoop` pass. -/
def ackInCount (l : List FEv) : Nat := l.countP FEv.isAckIn

theorem ackInCount_attempts (i : Nat) (errs : List GoError) :
    ackInCount (FanOutSequential.attempts i errs) = 0 := by
  induction errs with
  | nil => rfl
  | cons e rest ih =>
    simp only [FanOutSequential.attempts, ackInCount, List.countP_cons] at ih ⊢
    simp [FEv.isAckIn, ih]

theorem ackInCount_outputBlock (i : Nat) (s : OutScript) :
    ackInCount (FanOutSequential.outputBlock i s) = 0 := by
  cases s with
  | succeedAfter errs =>
    have h := ackInCount_attempts i errs
    simp only [FanOutSequential.outputBlock, ackInCount, List.countP_append] at h ⊢
    simp [FEv.isAckIn, h]
  | closedAfter errs =>
    have h := ackInCount_attempts i errs
    simp only [FanOutSequential.outputBlock, ackInCount, List.countP_append] at h ⊢
    simp [FEv.isAckIn, h]

theorem ackInCount_sendOne_le (scripts : Nat → OutScript) :
    ∀ (n i : Nat), ackInCount (FanOutSequential.sendOne scripts i n) ≤ 1 := by
  intro n
  induction n with
  | zero => intro i; simp [FanOutSequential.sendOne, ackInCount, List.countP_cons, FEv.isAckIn]
  | succ n ih =>
    intro i
    by_cases hok : (scripts i).ok
    · rw [FanOutSequential.sendOne, if_pos hok]
      rw [ackInCount, List.countP_append]
      have h1 := ackInCount_outputBlock i (scripts i)
      rw [ackInCount] at h1
      rw [h1]
      simpa [ackInCount] using ih (i + 1)
    · rw [FanOutSequential.sendOne, if_neg hok]
      rw [ackInCount_outputBlock i (scripts i)]
      omega

theorem ackInCount_sendOne_eq_one (scripts : Nat → OutScript) :
    ∀ (n i : Nat), (∀ k, i ≤ k → k < i + n → (scripts k).ok = true) →
      ackInCount (FanOutSequential.sendOne scripts i n) = 1 := by
  intro n
  induction n with
  | zero => intro i _; simp [FanOutSequential.sendOne, ackInCount, List.countP_cons, FEv.isAckIn]
  | succ n ih =>
    intro i hall
    have hok : (scripts i).ok = true := hall i (by omega) (by omega)
    rw [FanOutSequential.sendOne, if_pos hok]
    rw [ackInCount, List.countP_append]
    have h1 := ackInCount_outputBlock i (scripts i)
    rw [ackInCount] at h1
    rw [h1]
    have h2 := ih (i + 1) (fun k hk1 hk2 => hall k (by omega) (by omega))
    rw [ackInCount] at h2
    omega

theorem Retry.errLoop_acks (K p : Nat) :
    ∀ (results : List DownRes) (calls : Nat) (acc : List (Nat × Nat)),
      (Retry.errLoop K p calls acc results).acks.length ≤ 1
      ∧ ((Retry.errLoop K p calls acc results).ending = RetryEnd.interrupted →
          (Retry.errLoop K p calls acc results).acks = [])
      ∧ ((Retry.errLoop K p calls acc results).ending = RetryEnd.ackSuccess ∨
          (Retry.errLoop K p calls acc results).ending = RetryEnd.ackFailed →
          (Retry.errLoop K p calls acc results).acks.length = 1) := by
  intro results
  induction results with
  | nil => intro calls acc; simp [Retry.errLoop]
  | cons r rest ih =>
    intro calls acc
    cases r with
    | ok => simp [Retry.errLoop]
    | closedSig => simp [Retry.errLoop]
    | failThenClosed e =>
      by_cases h : K ≤ calls <;> simp [Retry.errLoop, h]
    | fail e =>
      by_cases h : K ≤ calls
      · simp [Retry.errLoop, h]
      · simp only [Retry.errLoop, if_neg h]
        exact ih (calls + 1) (acc ++ [(p, retryChanId)])

/-- Claim C1 counterexample: an inbound transaction accepted by the Retry
wrapper whose first downstream attempt fails and whose retry is then
interrupted by the broker's close signal (retry.go line 234 returns
before `ts.Ack` at line 273 runs) has zero values — not exactly one —
written to its AckSink. -/
theorem broker_single_ack_counterexample :
    (Retry.run 1 5 [DownRes.fail (GoError.test 0), DownRes.closedSig]).acks.length = 0
    ∧ (Retry.run 1 5 [DownRes.fail (GoError.test 0), DownRes.closedSig]).ending =
        RetryEnd.interrupted := by
  decide

/-- A `sendLoop` pass that meets a close-aborting output writes nothing:
when some output among those covered has a close-terminated script, the
pass returns at the first such output before reaching the `ts.Ack` call,
so the inbound AckSink receives zero values. -/
theorem ackInCount_sendOne_eq_zero (scripts : Nat → OutScript) :
    ∀ (n i : Nat), (∃ k, i ≤ k ∧ k < i + n ∧ (scripts k).ok = false) →
      ackInCount (FanOutSequential.sendOne scripts i n) = 0 := by
  intro n
  induction n with
  | zero =>
    intro i ⟨k, hk1, hk2, _⟩
    omega
  | succ n ih =>
    intro i ⟨k, hk1, hk2, hk3⟩
    by_cases hok : (scripts i).ok
    · rw [FanOutSequential.sendOne, if_pos hok]
      rw [ackInCount, List.countP_append]
      have h1 := ackInCount_outputBlock i (scripts i)
      rw [ackInCount] at h1
      have hki : k ≠ i := by
        intro hc
        rw [hc] at hk3
        rw [hk3] at hok
        exact Bool.noConfusion hok
      have h2 := ih (i + 1) ⟨k, by omega, by omega, hk3⟩
      rw [ackInCount] at h2
      omega
    · rw [FanOutSequential.sendOne, if_neg hok]
      exact ackInCount_outputBlock i (scripts i)

/-! ## Retry wrapper backpressure gate (retry.go lines 179-201)

The main loop of `Retry.loop` alternates between a gate — the inner
`for atomic.LoadInt64(&errLooped) > 0` loop at lines 182-190, which keeps
re-checking the counter until a load observes zero — and the inbound
receive `tran, open = <-r.transactionsIn` at line 195 followed by the
downstream dispatch and goroutine spawn (lines 203-276).  Each retry
goroutine increments `errLooped` when it first observes a failure (line
241) and decrements it when it leaves its error loop (line 219).  The
interleaving of these accesses is modelled as a labelled transition
system: the main loop's program counter, the counter value, and the
number of inbound transactions consumed so far. -/

/-- Program counter of the main consuming loop: at the gate check, or past
the gate at the inbound-receive select. -/
inductive RetryPC where
  | gate
  | recv
deriving DecidableEq, Repr

/-- State of the gate model: main-loop program counter, current value of
the `errLooped` counter, and how many inbound transactions have been
consumed. -/
structure RetrySt where
  pc : RetryPC
  counter : Nat
  consumed : Nat
deriving DecidableEq, Repr

/-- Transition labels: `consume` marks the receive from the inbound
transaction channel; every other step is unlabelled. -/
inductive RetryLabel where
  | consume
  | tau
deriving DecidableEq, Repr

/-- One interleaved step of `Retry.loop` and its retry goroutines:
`gatePass` — the load at line 182 observes zero and the loop proceeds to
the receive; `gateSpin` — the load observes a positive counter and the
loop stays at the gate (lines 183-189); `recvStep` — the receive at line
195 plus dispatch, returning to the top of the loop; `goroutineInc` — a
retry goroutine runs `atomic.AddInt64(&errLooped, 1)` (line 241);
`goroutineDec` — a retry goroutine runs `atomic.AddInt64(&errLooped, -1)`
(line 219). -/
inductive RetryStep : RetrySt → RetryLabel → RetrySt → Prop where
  | gatePass (s : RetrySt) : s.pc = RetryPC.gate → s.counter = 0 →
      RetryStep s RetryLabel.tau ⟨RetryPC.recv, s.counter, s.consumed⟩
  | gateSpin (s : RetrySt) : s.pc = RetryPC.gate → 0 < s.counter →
      RetryStep s RetryLabel.tau s
  | recvStep (s : RetrySt) : s.pc = RetryPC.recv →
      RetryStep s RetryLabel.consume ⟨RetryPC.gate, s.counter, s.consumed + 1⟩
  | goroutineInc (s : RetrySt) :
      RetryStep s RetryLabel.tau ⟨s.pc, s.counter + 1, s.consumed⟩
  | goroutineDec (s : RetrySt) : 0 < s.counter →
      RetryStep s RetryLabel.tau ⟨s.pc, s.counter - 1, s.consumed⟩

/-- States reachable from the initial state (main loop at the gate, no
retries in flight, nothing consumed). -/
inductive RetryReach : RetrySt → Prop where
  | init : RetryReach ⟨RetryPC.gate, 0, 0⟩
  | step (s u : RetrySt) (lab : RetryLabel) :
      RetryReach s → RetryStep s lab u → RetryReach u

/-- Claim C7 counterexample: it is not true that every inbound receive
happens with the retry counter at zero.  The gate load at retry.go line
182 and the channel receive at line 195 are separate steps: after the
gate observes zero, a retry goroutine can increment `errLooped` (line
241) before the receive fires, so the wrapper consumes a new inbound
transaction while the counter is positive.  The refuting run:
gate(0) -pass-> recv(0) -inc-> recv(1) -consume-> gate(1). -/
theorem retry_gate_counterexample :
    ¬ (∀ (s u : RetrySt) (lab : RetryLabel), RetryReach s →
        RetryStep s lab u → lab = RetryLabel.consume → s.counter = 0) := by
  intro h
  have h1 : RetryReach ⟨RetryPC.recv, 0, 0⟩ :=
    RetryReach.step ⟨RetryPC.gate, 0, 0⟩ ⟨RetryPC.recv, 0, 0⟩ RetryLabel.tau
      RetryReach.init (RetryStep.gatePass ⟨RetryPC.gate, 0, 0⟩ rfl rfl)
  have h2 : RetryReach ⟨RetryPC.recv, 1, 0⟩ :=
    RetryReach.step ⟨RetryPC.recv, 0, 0⟩ ⟨RetryPC.recv, 1, 0⟩ RetryLabel.tau h1
      (RetryStep.goroutineInc ⟨RetryPC.recv, 0, 0⟩)
  have h3 : RetryStep ⟨RetryPC.recv, 1, 0⟩ RetryLabel.consume ⟨RetryPC.gate, 1, 1⟩ :=
    RetryStep.recvStep ⟨RetryPC.recv, 1, 0⟩ rfl
  have := h ⟨RetryPC.recv, 1, 0⟩ ⟨RetryPC.gate, 1, 1⟩ RetryLabel.consume h2 h3 rfl
  simp at this

/-- Claim C7 amended: the consuming loop receives from the inbound channel
only from the post-gate state, and it moves past the gate only on a step
in which it observes the in-flight-retry counter equal to zero; while a
gate check observes a positive counter the loop stays at the gate.  (The
counter may still be incremented by a retry goroutine between the zero
observation and the receive, which is what refutes the claim as
stated.) -/
theorem retry_gate_suspends (s u : RetrySt) (lab : RetryLabel)
    (hstep : RetryStep s lab u) :
    (lab = RetryLabel.consume → s.pc = RetryPC.recv)
    ∧ (s.pc = RetryPC.gate → u.pc = RetryPC.recv → s.counter = 0)
    ∧ (s.pc = RetryPC.gate → 0 < s.counter → lab = RetryLabel.tau ∧
        u.pc = RetryPC.gate ∧ u.consumed = s.consumed) := by
  cases hstep with
  | gatePass h1 h2 =>
    refine ⟨fun h => by simp at h, fun _ _ => h2, fun _ hc => ?_⟩
    omega
  | gateSpin h1 h2 =>
    exact ⟨fun h => by simp at h, fun hg hr => by rw [hg] at hr; simp at hr,
      fun _ _ => ⟨rfl, h1, rfl⟩⟩
  | recvStep h1 =>
    refine ⟨fun _ => h1, fun hg _ => ?_, fun hg _ => ?_⟩
    · rw [h1] at hg; simp at hg
    · rw [h1] at hg; simp at hg
  | goroutineInc =>
    exact ⟨fun h => by simp at h, fun hg hr => by simp only [hg] at hr; simp at hr,
      fun hg _ => ⟨rfl, hg, rfl⟩⟩
  | goroutineDec h1 =>
    exact ⟨fun h => by simp at h, fun hg hr => by simp only [hg] at hr; simp at hr,
      fun hg _ => ⟨rfl, hg, rfl⟩⟩

/-- Witness for the amended C7: a concrete receive step is only possible
from the post-gate state, and a concrete spinning gate step keeps the
loop at the gate. -/
theorem retry_gate_suspends_witness :
    ((RetryLabel.consume = RetryLabel.consume → (⟨RetryPC.recv, 0, 0⟩ : RetrySt).pc = RetryPC.recv)
      ∧ ((⟨RetryPC.recv, 0, 0⟩ : RetrySt).pc = RetryPC.gate → (⟨RetryPC.gate, 0, 1⟩ : RetrySt).pc = RetryPC.recv → (⟨RetryPC.recv, 0, 0⟩ : RetrySt).counter = 0)
      ∧ ((⟨RetryPC.recv, 0, 0⟩ : RetrySt).pc = RetryPC.gate → 0 < (⟨RetryPC.recv, 0, 0⟩ : RetrySt).counter →
          RetryLabel.consume = RetryLabel.tau ∧ (⟨RetryPC.gate, 0, 1⟩ : RetrySt).pc = RetryPC.gate
          ∧ (⟨RetryPC.gate, 0, 1⟩ : RetrySt).consumed = (⟨RetryPC.recv, 0, 0⟩ : RetrySt).consumed)) :=
  retry_gate_suspends ⟨RetryPC.recv, 0, 0⟩ ⟨RetryPC.gate, 0, 1⟩ RetryLabel.consume
    (RetryStep.recvStep ⟨RetryPC.recv, 0, 0⟩ rfl)

/-! ## DynamicFanIn (src/internal/old/broker/fan_out_test.go, lines 429-687)

`DynamicFanIn` keeps a label-indexed map of inputs.  All mutations go
through `managerLoop` (lines 624-668): a `SetInput` request with a name
already present first calls `removeInput` (lines 601-621) — `CloseAsync`
the old input, wait on its per-label done channel up to the timeout, and
on timeout return `ErrTimeout` *without* deleting the map entries — and
only if that returned nil and the new input is non-nil calls `addInput`
(lines 575-599), which starts the forwarder goroutine and stores the new
input under the label. -/

/-- Association-list embedding of the `inputs` map (label, input id). -/
def lookupL : List (Nat × Nat) → Nat → Option Nat
  | [], _ => none
  | (k, v) :: rest, key => if k = key then some v else lookupL rest key

/-- Remove a label from the map (Go `delete(d.inputs, ident)`). -/
def eraseL (m : List (Nat × Nat)) (key : Nat) : List (Nat × Nat) :=
  m.filter (fun p => !(p.1 == key))

/-- Store an input under a label (Go `d.inputs[ident] = input`). -/
def insertL (m : List (Nat × Nat)) (key v : Nat) : List (Nat × Nat) :=
  (key, v) :: eraseL m key

/-- Externally visible events of handling one `SetInput` request. -/
inductive SetEv where
  | closeAsyncOld (label old : Nat)
  | quiesceWaited (label : Nat) (ok : Bool)
  | startForwarder (label newInp : Nat)
deriving DecidableEq, Repr

/-- Result of handling one `SetInput` request: the updated map, the error
delivered back on the request's result channel, and the events in the
order they happen. -/
structure SetOutcome where
  inputs : List (Nat × Nat)
  err : Option GoError
  events : List SetEv
deriving DecidableEq, Repr

/-- `DynamicFanIn.removeInput` (fan_out_test.go lines 601-621): no-op if
the label is absent; otherwise `CloseAsync` the old input and wait for
its forwarder's done channel.  `quiesces` says whether the forwarder
quiesces within the timeout; on timeout the map is left untouched and
`ErrTimeout` is returned ("Do NOT remove inputs from our map unless we
are sure they are closed"). -/
def DynamicFanIn.removeInput (m : List (Nat × Nat)) (label : Nat)
    (quiesces : Bool) : SetOutcome :=
  match lookupL m label with
  | none => ⟨m, none, []⟩
  | some old =>
      if quiesces then
        ⟨eraseL m label, none,
          [SetEv.closeAsyncOld label old, SetEv.quiesceWaited label true]⟩
      else
        ⟨m, some GoError.timeout,
          [SetEv.closeAsyncOld label old, SetEv.quiesceWaited label false]⟩

/-- The body of `managerLoop` for one wrapped request (fan_out_test.go
lines 646-657): remove an existing input under the same name first; only
if that succeeded and the new input is non-nil, start it.  The returned
`err` is what `SetInput` receives. -/
def DynamicFanIn.handleSetInput (m : List (Nat × Nat)) (label : Nat)
    (newInput : Option Nat) (quiesces : Bool) : SetOutcome :=
  let r := if (lookupL m label).isSome
    then DynamicFanIn.removeInput m label quiesces
    else ⟨m, none, []⟩
  match r.err, newInput with
  | none, some inp =>
      ⟨insertL r.inputs label inp, none, r.events ++ [SetEv.startForwarder label inp]⟩
  | _, _ => r

/-- Claim C4: replacing an existing label with a new non-nil input removes
the old input (close and wait) before the new one is started; if the
removal times out, `SetInput` returns an error and neither change takes
effect — the map is exactly as before (the old input stays under the
label) and no forwarder for the new input is started. -/
theorem DynamicFanIn_replace_semantics (m : List (Nat × Nat)) (label old inp : Nat)
    (h : lookupL m label = some old) :
    (DynamicFanIn.handleSetInput m label (some inp) false =
      ⟨m, some GoError.timeout,
        [SetEv.closeAsyncOld label old, SetEv.quiesceWaited label false]⟩)
    ∧ (DynamicFanIn.handleSetInput m label (some inp) true =
      ⟨insertL (eraseL m label) label inp, none,
        [SetEv.closeAsyncOld label old, SetEv.quiesceWaited label true,
          SetEv.startForwarder label inp]⟩) := by
  constructor
  · simp [DynamicFanIn.handleSetInput, DynamicFanIn.removeInput, h]
  · simp [DynamicFanIn.handleSetInput, DynamicFanIn.removeInput, h]

/-- Witness for C4 on a concrete one-entry map. -/
theorem DynamicFanIn_replace_semantics_witness :
    (DynamicFanIn.handleSetInput [(3, 10)] 3 (some 11) false =
      ⟨[(3, 10)], some GoError.timeout,
        [SetEv.closeAsyncOld 3 10, SetEv.quiesceWaited 3 false]⟩)
    ∧ (DynamicFanIn.handleSetInput [(3, 10)] 3 (some 11) true =
      ⟨insertL (eraseL [(3, 10)] 3) 3 11, none,
        [SetEv.closeAsyncOld 3 10, SetEv.quiesceWaited 3 true,
          SetEv.startForwarder 3 11]⟩) :=
  DynamicFanIn_replace_semantics [(3, 10)] 3 10 11 (by decide)

/-- Events of one add/remove cycle of a dynamic input's forwarder
goroutine (fan_out_test.go lines 578-592). -/
inductive FwdEv where
  | onAdd (label : Nat)
  | forward (label : Nat) (t : Txn)
  | loopExited (label : Nat)
  | onRemove (label : Nat)
  | closedChanClose (label : Nat)
deriving DecidableEq, Repr

/-- The forwarder goroutine started by `DynamicFanIn.addInput`
(fan_out_test.go lines 578-592): it calls `d.onAdd(ident)`, then loops
forwarding each transaction from the input's channel into the merged
channel until the input channel closes, and on return the deferred block
calls `d.onRemove(ident)` and then closes the per-label done channel.
`msgs` is the input's transaction stream for the whole cycle. -/
def DynamicFanIn.forwarderTrace (label : Nat) (msgs : List Txn) : List FwdEv :=
  FwdEv.onAdd label ::
    (msgs.map (FwdEv.forward label) ++
      [FwdEv.loopExited label, FwdEv.onRemove label, FwdEv.closedChanClose label])

theorem forward_not_mem_map {label : Nat} {msgs : List Txn} {ev : FwdEv}
    (h : ∀ t, ev ≠ FwdEv.forward label t) : ev ∉ msgs.map (FwdEv.forward label) := by
  intro hm
  obtain ⟨t, _, ht⟩ := List.mem_map.mp hm
  exact h t ht.symm

/-- Claim C8: in each completed add/remove cycle of a DynamicFanIn label,
the OnAdd and OnRemove hooks each fire exactly once; OnAdd precedes every
transaction forwarded into the merged channel and OnRemove follows them
all; OnRemove fires only after the forwarding loop has exited. -/
theorem DynamicFanIn_hooks_once_ordered (label : Nat) (msgs : List Txn) :
    (DynamicFanIn.forwarderTrace label msgs).count (FwdEv.onAdd label) = 1
    ∧ (DynamicFanIn.forwarderTrace label msgs).count (FwdEv.onRemove label) = 1
    ∧ (∀ (t : Txn) (l₁ l₂ : List FwdEv),
        DynamicFanIn.forwarderTrace label msgs = l₁ ++ FwdEv.forward label t :: l₂ →
        FwdEv.onAdd label ∈ l₁ ∧ FwdEv.onRemove label ∈ l₂)
    ∧ (∀ (l₁ l₂ : List FwdEv),
        DynamicFanIn.forwarderTrace label msgs = l₁ ++ FwdEv.onRemove label :: l₂ →
        FwdEv.loopExited label ∈ l₁ ∧ ∀ t ∈ msgs, FwdEv.forward label t ∈ l₁) := by
  have hAddMap : FwdEv.onAdd label ∉ msgs.map (FwdEv.forward label) :=
    forward_not_mem_map (fun t h => FwdEv.noConfusion h)
  have hRemMap : FwdEv.onRemove label ∉ msgs.map (FwdEv.forward label) :=
    forward_not_mem_map (fun t h => FwdEv.noConfusion h)
  refine ⟨?_, ?_, ?_, ?_⟩
  · simp only [DynamicFanIn.forwarderTrace, List.count_cons, List.count_append]
    rw [List.count_eq_zero.mpr hAddMap]
    simp
  · simp only [DynamicFanIn.forwarderTrace, List.count_cons, List.count_append]
    rw [List.count_eq_zero.mpr hRemMap]
    simp
  · intro t l₁ l₂ h
    rw [DynamicFanIn.forwarderTrace] at h
    cases l₁ with
    | nil =>
      simp only [List.nil_append] at h
      injection h with h1 h2
      exact absurd h1 (fun hc => FwdEv.noConfusion hc)
    | cons a tl =>
      simp only [List.cons_append] at h
      injection h with h1 h2
      subst h1
      constructor
      · exact List.mem_cons_self _ _
      · have hnotin : FwdEv.forward label t ∉
            [FwdEv.loopExited label, FwdEv.onRemove label, FwdEv.closedChanClose label] := by
          intro hc
          simp only [List.mem_cons, List.not_mem_nil, or_false] at hc
          rcases hc with hc | hc | hc <;> exact FwdEv.noConfusion hc
        obtain ⟨l₃, hl₂, _⟩ := split_of_not_mem_suf (msgs.map (FwdEv.forward label)) _ tl l₂
          hnotin h2
        rw [hl₂]
        exact List.mem_append_right l₃ (by simp)
  · intro l₁ l₂ h
    rw [DynamicFanIn.forwarderTrace] at h
    have hP : FwdEv.onRemove label ∉
        FwdEv.onAdd label :: (msgs.map (FwdEv.forward label) ++ [FwdEv.loopExited label]) := by
      intro hc
      simp only [List.mem_cons, List.mem_append, List.not_mem_nil, or_false] at hc
      rcases hc with hc | hc | hc
      · exact FwdEv.noConfusion hc
      · exact hRemMap hc
      · exact FwdEv.noConfusion hc
    have hS : FwdEv.onRemove label ∉ [FwdEv.closedChanClose label] := by
      simp
    have heq : (FwdEv.onAdd label :: (msgs.map (FwdEv.forward label) ++ [FwdEv.loopExited label]))
        ++ FwdEv.onRemove label :: [FwdEv.closedChanClose label] = l₁ ++ FwdEv.onRemove label :: l₂ := by
      rw [← h]
      simp
    obtain ⟨hl₁, hl₂⟩ := split_unique _ _ l₁ l₂ hP hS heq
    rw [hl₁]
    constructor
    · simp
    · intro t ht
      simp only [List.mem_cons, List.mem_append]
      exact Or.inr (Or.inl (List.mem_map_of_mem _ ht))

/-- Witness for C8's ordering conjuncts on a concrete one-message cycle. -/
theorem DynamicFanIn_hooks_once_ordered_witness :
    ((DynamicFanIn.forwarderTrace 4 [⟨9, 2⟩]).count (FwdEv.onAdd 4) = 1)
    ∧ (FwdEv.onAdd 4 ∈ [FwdEv.onAdd 4] ∧ FwdEv.onRemove 4 ∈
        [FwdEv.loopExited 4, FwdEv.onRemove 4, FwdEv.closedChanClose 4])
    ∧ (FwdEv.loopExited 4 ∈ [FwdEv.onAdd 4, FwdEv.forward 4 ⟨9, 2⟩, FwdEv.loopExited 4]
        ∧ ∀ t ∈ [(⟨9, 2⟩ : Txn)], FwdEv.forward 4 t ∈
            [FwdEv.onAdd 4, FwdEv.forward 4 ⟨9, 2⟩, FwdEv.loopExited 4]) :=
  ⟨(DynamicFanIn_hooks_once_ordered 4 [⟨9, 2⟩]).1,
    (DynamicFanIn_hooks_once_ordered 4 [⟨9, 2⟩]).2.2.1 ⟨9, 2⟩ [FwdEv.onAdd 4]
      [FwdEv.loopExited 4, FwdEv.onRemove 4, FwdEv.closedChanClose 4] (by decide),
    (DynamicFanIn_hooks_once_ordered 4 [⟨9, 2⟩]).2.2.2
      [FwdEv.onAdd 4, FwdEv.forward 4 ⟨9, 2⟩, FwdEv.loopExited 4]
      [FwdEv.closedChanClose 4] (by decide)⟩

/-! ## Channel-closing discipline (C9)

`RoundRobin.loop` closes each per-output channel in its deferred block
(round_robin.go lines 93-99), which runs exactly once, when the loop
returns — and the loop returns only when the inbound channel is observed
closed (line 107) or the close signal fires (lines 110, 115).
`DynamicFanIn.managerLoop` closes the merged transaction channel in its
deferred block (fan_out_test.go lines 625-638), which runs after the
close signal has made the loop return and after `removeInput` has been
retried until success for every remaining input — i.e. after every
forwarder has exited. -/

/-- Events of a whole `RoundRobin.loop` execution.  The vocabulary
includes an AckSink write event (`ackWrite`) so that the absence of any
ack call in `RoundRobin.loop` — the loop only forwards transactions, it
never invokes `ts.Ack` — is expressible as a property of the generated
trace. -/
inductive RREv where
  | dispatch (i : Nat) (t : Txn)
  | inChanClosed
  | closeSignal
  | closeOut (i : Nat)
  | closedChanClosed
  | ackWrite (sink : Nat) (r : Option GoError)
deriving DecidableEq, Repr

/-- How the round-robin loop terminated: the inbound channel was closed,
or the close signal fired (at the receive or at the forward select). -/
inductive RRTermination where
  | viaInputClosed
  | viaCloseSignal
deriving DecidableEq, Repr

/-- The terminating event observed by the loop. -/
def RoundRobin.termEv : RRTermination → RREv
  | RRTermination.viaInputClosed => RREv.inChanClosed
  | RRTermination.viaCloseSignal => RREv.closeSignal

/-- The deferred block of `RoundRobin.loop` (lines 93-99): close every
per-output channel, then close `closedChan`. -/
def RoundRobin.shutdownEvents (N : Nat) : List RREv :=
  (List.range N).map RREv.closeOut ++ [RREv.closedChanClosed]

/-- A full `RoundRobin.loop` execution: the dispatches for the
transactions consumed before termination, the terminating observation,
then the deferred closures. -/
def RoundRobin.trace (N : Nat) (txns : List Txn) (term : RRTermination) : List RREv :=
  (RoundRobin.loop N 0 txns).map (fun p => RREv.dispatch p.1 p.2)
    ++ RoundRobin.termEv term :: RoundRobin.shutdownEvents N

/-- Predicate: the event is a write to some transaction's AckSink. -/
def RREv.isAckWrite : RREv → Bool
  | RREv.ackWrite _ _ => true
  | _ => false

/-- `RoundRobin.loop` contains no ack call (round_robin.go lines 92-124),
so no execution of it writes to any AckSink. -/
theorem RoundRobin.trace_no_ackWrite (N : Nat) (txns : List Txn)
    (term : RRTermination) :
    (RoundRobin.trace N txns term).countP RREv.isAckWrite = 0 := by
  rw [List.countP_eq_zero]
  intro ev hev
  rw [RoundRobin.trace] at hev
  rcases List.mem_append.mp hev with h | h
  · obtain ⟨p, _, hp⟩ := List.mem_map.mp h
    rw [← hp]
    simp [RREv.isAckWrite]
  · rcases List.mem_cons.mp h with rfl | h
    · cases term <;> simp [RoundRobin.termEv, RREv.isAckWrite]
    · rw [RoundRobin.shutdownEvents] at h
      rcases List.mem_append.mp h with h | h
      · obtain ⟨i, _, hi⟩ := List.mem_map.mp h
        rw [← hi]
        simp [RREv.isAckWrite]
      · simp only [List.mem_singleton] at h
        rw [h]
        simp [RREv.isAckWrite]

/-- The dispatch loop forwards each inbound transaction whole — payload
and AckSink — regardless of the cursor value. -/
theorem RoundRobin.loop_map_snd (N : Nat) :
    ∀ (ts : List Txn) (i : Nat), (RoundRobin.loop N i ts).map Prod.snd = ts := by
  intro ts
  induction ts with
  | nil => intro i; rfl
  | cons t ts ih => intro i; simp [RoundRobin.loop, ih]

/-- Events of a `DynamicFanIn.managerLoop` shutdown. -/
inductive DEv where
  | closeSignal
  | closeAsyncInput (label : Nat)
  | forwarderExited (label : Nat)
  | closeMerged
  | closedChanClosed
deriving DecidableEq, Repr

/-- The shutdown path of `DynamicFanIn.managerLoop` (fan_out_test.go
lines 625-638): the loop returns because the close signal fired, then the
deferred block calls `CloseAsync` on every remaining input and retries
`removeInput` until each forwarder has exited, and only then closes the
merged transaction channel and `closedChan`. -/
def DynamicFanIn.shutdownTrace (labels : List Nat) : List DEv :=
  DEv.closeSignal ::
    (labels.flatMap (fun l => [DEv.closeAsyncInput l, DEv.forwarderExited l]) ++
      [DEv.closeMerged, DEv.closedChanClosed])

theorem closeOut_count_map (j : Nat) :
    ∀ N, ((List.range N).map RREv.closeOut).count (RREv.closeOut j) =
      if j < N then 1 else 0 := by
  intro N
  induction N with
  | zero => simp
  | succ N ih =>
    rw [List.range_succ, List.map_append, List.count_append, ih]
    by_cases hj : j < N
    · have : j < N + 1 := by omega
      have hne : RREv.closeOut N ≠ RREv.closeOut j := by
        intro hc
        injection hc with hc
        omega
      simp [hj, this, List.count_singleton, hne]
    · by_cases hj2 : j = N
      · subst hj2
        simp [hj]
      · have : ¬ (j < N + 1) := by omega
        have hne : RREv.closeOut j ≠ RREv.closeOut N := by
          intro hc
          injection hc with hc
          omega
        simp only [hj, this, if_false, List.map_cons, List.map_nil]
        rw [List.count_cons]
        simp [hne]
        omega

theorem closeOut_not_mem_dispatches (N : Nat) (txns : List Txn) (j : Nat) :
    RREv.closeOut j ∉ (RoundRobin.loop N 0 txns).map (fun p => RREv.dispatch p.1 p.2) := by
  intro h
  obtain ⟨p, _, hp⟩ := List.mem_map.mp h
  exact RREv.noConfusion hp

theorem closeMerged_not_mem_bind (labels : List Nat) :
    DEv.closeMerged ∉ labels.flatMap (fun l => [DEv.closeAsyncInput l, DEv.forwarderExited l]) := by
  intro h
  obtain ⟨l, _, hl⟩ := List.mem_flatMap.mp h
  simp only [List.mem_cons, List.not_mem_nil, or_false] at hl
  rcases hl with hc | hc <;> exact DEv.noConfusion hc

/-- Claim C9: each per-output channel of RoundRobin is closed exactly once
per execution, and any closure occurs only after the inbound channel was
observed closed or the close signal fired; DynamicFanIn's merged channel
is closed exactly once, and only after the top-level close signal and
after every input's forwarder has exited. -/
theorem broker_channel_close_discipline (N : Nat) (txns : List Txn)
    (term : RRTermination) (labels : List Nat) :
    (∀ j, j < N → (RoundRobin.trace N txns term).count (RREv.closeOut j) = 1)
    ∧ (∀ (j : Nat) (l₁ l₂ : List RREv),
        RoundRobin.trace N txns term = l₁ ++ RREv.closeOut j :: l₂ →
        RREv.inChanClosed ∈ l₁ ∨ RREv.closeSignal ∈ l₁)
    ∧ ((DynamicFanIn.shutdownTrace labels).count DEv.closeMerged = 1)
    ∧ (∀ (l₁ l₂ : List DEv),
        DynamicFanIn.shutdownTrace labels = l₁ ++ DEv.closeMerged :: l₂ →
        DEv.closeSignal ∈ l₁ ∧ ∀ l ∈ labels, DEv.forwarderExited l ∈ l₁) := by
  refine ⟨?_, ?_, ?_, ?_⟩
  · intro j hj
    rw [RoundRobin.trace, List.count_append,
      List.count_eq_zero.mpr (closeOut_not_mem_dispatches N txns j)]
    rw [List.count_cons, RoundRobin.shutdownEvents, List.count_append, closeOut_count_map]
    have hterm : (RoundRobin.termEv term == RREv.closeOut j) = false := by
      cases term <;> simp [RoundRobin.termEv]
    simp [hj, hterm]
  · intro j l₁ l₂ h
    rw [RoundRobin.trace] at h
    obtain ⟨l₃, hl₁, hrest⟩ := split_of_not_mem_pre _ _ l₁ l₂
      (closeOut_not_mem_dispatches N txns j) h
    cases l₃ with
    | nil =>
      simp only [List.nil_append] at hrest
      injection hrest with h1 h2
      cases term <;> exact absurd h1 (by simp [RoundRobin.termEv])
    | cons a tl =>
      simp only [List.cons_append] at hrest
      injection hrest with h1 h2
      rw [hl₁, ← h1]
      cases term with
      | viaInputClosed =>
        exact Or.inl (List.mem_append_right _ (List.mem_cons_self _ _))
      | viaCloseSignal =>
        exact Or.inr (List.mem_append_right _ (List.mem_cons_self _ _))
  · rw [DynamicFanIn.shutdownTrace, List.count_cons, List.count_append,
      List.count_eq_zero.mpr (closeMerged_not_mem_bind labels)]
    simp
  · intro l₁ l₂ h
    rw [DynamicFanIn.shutdownTrace] at h
    have hP : DEv.closeMerged ∉
        DEv.closeSignal :: labels.flatMap (fun l => [DEv.closeAsyncInput l, DEv.forwarderExited l]) := by
      intro hc
      simp only [List.mem_cons] at hc
      rcases hc with hc | hc
      · exact DEv.noConfusion hc
      · exact closeMerged_not_mem_bind labels hc
    have hS : DEv.closeMerged ∉ [DEv.closedChanClosed] := by
      simp
    have heq : (DEv.closeSignal :: labels.flatMap (fun l => [DEv.closeAsyncInput l, DEv.forwarderExited l]))
        ++ DEv.closeMerged :: [DEv.closedChanClosed] = l₁ ++ DEv.closeMerged :: l₂ := by
      rw [← h]
      simp
    obtain ⟨hl₁, hl₂⟩ := split_unique _ _ l₁ l₂ hP hS heq
    rw [hl₁]
    constructor
    · exact List.mem_cons_self _ _
    · intro l hl
      refine List.mem_cons_of_mem _ (List.mem_flatMap.mpr ⟨l, hl, ?_⟩)
      simp

/-- Witness for C9 on a concrete configuration: two outputs, one consumed
transaction, termination via close signal; one dynamic input label. -/
theorem broker_channel_close_discipline_witness :
    ((RoundRobin.trace 2 [⟨5, 6⟩] RRTermination.viaCloseSignal).count (RREv.closeOut 1) = 1)
    ∧ (RREv.inChanClosed ∈ [RREv.dispatch 0 ⟨5, 6⟩, RREv.closeSignal, RREv.closeOut 0]
        ∨ RREv.closeSignal ∈ [RREv.dispatch 0 ⟨5, 6⟩, RREv.closeSignal, RREv.closeOut 0])
    ∧ ((DynamicFanIn.shutdownTrace [8]).count DEv.closeMerged = 1)
    ∧ (DEv.closeSignal ∈ [DEv.closeSignal, DEv.closeAsyncInput 8, DEv.forwarderExited 8]
        ∧ ∀ l ∈ [8], DEv.forwarderExited l ∈
            [DEv.closeSignal, DEv.closeAsyncInput 8, DEv.forwarderExited 8]) :=
  ⟨(broker_channel_close_discipline 2 [⟨5, 6⟩] RRTermination.viaCloseSignal [8]).1 1 (by decide),
    (broker_channel_close_discipline 2 [⟨5, 6⟩] RRTermination.viaCloseSignal [8]).2.1 1
      [RREv.dispatch 0 ⟨5, 6⟩, RREv.closeSignal, RREv.closeOut 0] [RREv.closedChanClosed] (by decide),
    (broker_channel_close_discipline 2 [⟨5, 6⟩] RRTermination.viaCloseSignal [8]).2.2.1,
    (broker_channel_close_discipline 2 [⟨5, 6⟩] RRTermination.viaCloseSignal [8]).2.2.2
      [DEv.closeSignal, DEv.closeAsyncInput 8, DEv.forwarderExited 8] [DEv.closedChanClosed] (by decide)⟩

/-! ## SetInput result delivery (C10)

`DynamicFanIn.SetInput` (fan_out_test.go lines 524-540) creates an
unbuffered error channel `resChan`, hands the request to `managerLoop`,
and ends with `return <-resChan`.  In `managerLoop` (lines 658-663) the
reply is delivered by `wrappedInput.ResChan <- err`; if the close signal
fires first, the loop executes `close(wrappedInput.ResChan)` and returns.
In Go, a receive from a closed channel yields the zero value of the
element type — for a `chan error` that is `nil`. -/

/-- What the requester observes on the result channel: a delivered value,
or the channel being closed (in which case Go's receive yields the zero
value). -/
inductive ChanRead where
  | value (e : Option GoError)
  | closedZero
deriving DecidableEq, Repr

/-- Go semantics of `<-resChan` for a `chan error`: a receive from a
closed channel yields nil (`none`). -/
def recvErrChan : ChanRead → Option GoError
  | ChanRead.value e => e
  | ChanRead.closedZero => none

/-- The three ways a `SetInput` call resolves, by where the close signal
fires relative to the request (fan_out_test.go lines 524-540 and
656-663): before the request is accepted (`SetInput` returns
`ErrTypeClosed` itself); after acceptance but before the reply is
delivered (the manager closes the result channel); or with the manager's
error delivered normally. -/
inductive SetPhase where
  | closedBeforeAccept
  | acceptedThenClosedDuringReply
  | acceptedDelivered (mgrErr : Option GoError)
deriving DecidableEq, Repr

/-- The value `SetInput` returns in each phase: `ErrTypeClosed` when the
close signal beats the request send (lines 525-526 and 536-537),
otherwise the result of `return <-resChan` (line 539). -/
def DynamicFanIn.setInputResult : SetPhase → Option GoError
  | SetPhase.closedBeforeAccept => some GoError.typeClosed
  | SetPhase.acceptedThenClosedDuringReply => recvErrChan ChanRead.closedZero
  | SetPhase.acceptedDelivered e => recvErrChan (ChanRead.value e)

/-- Claim C10: when the close signal fires after the manager loop has
accepted a SetInput request but before its result is delivered, the
manager closes the result channel and `SetInput` returns nil — reported
as success, not as the `ErrTypeClosed` error returned when the close
signal beats the request. -/
theorem DynamicFanIn_setInput_close_returns_nil :
    DynamicFanIn.setInputResult SetPhase.acceptedThenClosedDuringReply = none
    ∧ DynamicFanIn.setInputResult SetPhase.acceptedThenClosedDuringReply ≠
        some GoError.typeClosed
    ∧ DynamicFanIn.setInputResult SetPhase.closedBeforeAccept =
        some GoError.typeClosed := by
  decide

/-- Script set used in the C1 witness: the single output's interaction
ends with the close signal. -/
def oneClosedScripts : Nat → OutScript := fun _ => OutScript.closedAfter [GoError.test 0]

/-- Claim C1 amended: for every Transaction accepted by a broker, at most
one value is written to its AckSink.  FanOutSequential and the Retry
wrapper write exactly one value on every run the close signal does not
interrupt (all outputs eventually acknowledge success, resp. the retry
loop ends in a success or terminal-failure acknowledgment) and zero
values on a run the close signal aborts — including the path where the
close signal fires while the transaction is still being retried.
RoundRobin itself writes no value to any AckSink: its loop contains no
ack call, and it forwards each transaction, AckSink included, unchanged
to the selected output. -/
theorem broker_single_ack (N K p : Nat) (scripts : Nat → OutScript)
    (results : List DownRes) (N2 : Nat) (txns : List Txn) (term : RRTermination) :
    ackInCount (FanOutSequential.run N scripts) ≤ 1
    ∧ ((∀ k, k < N → (scripts k).ok = true) →
        ackInCount (FanOutSequential.run N scripts) = 1)
    ∧ ((∃ k, k < N ∧ (scripts k).ok = false) →
        ackInCount (FanOutSequential.run N scripts) = 0)
    ∧ (Retry.run K p results).acks.length ≤ 1
    ∧ ((Retry.run K p results).ending = RetryEnd.interrupted →
        (Retry.run K p results).acks = [])
    ∧ ((Retry.run K p results).ending = RetryEnd.ackSuccess ∨
        (Retry.run K p results).ending = RetryEnd.ackFailed →
        (Retry.run K p results).acks.length = 1)
    ∧ (RoundRobin.trace N2 txns term).countP RREv.isAckWrite = 0
    ∧ (RoundRobin.loop N2 0 txns).map Prod.snd = txns := by
  refine ⟨ackInCount_sendOne_le scripts N 0, ?_, ?_, ?_, ?_, ?_,
    RoundRobin.trace_no_ackWrite N2 txns term, RoundRobin.loop_map_snd N2 txns 0⟩
  · intro hall
    exact ackInCount_sendOne_eq_one scripts N 0 (fun k hk1 hk2 => hall k (by omega))
  · intro ⟨k, hk1, hk2⟩
    exact ackInCount_sendOne_eq_zero scripts N 0 ⟨k, by omega, by omega, hk2⟩
  · exact (Retry.errLoop_acks K p results 0 _).1
  · exact (Retry.errLoop_acks K p results 0 _).2.1
  · exact (Retry.errLoop_acks K p results 0 _).2.2

/-- Witness for the amended C1 at concrete configurations: two successful
outputs (one ack), one close-aborted output (zero acks), a retry run
ending in success (one ack), and a round-robin run over two outputs (no
ack writes, full pass-through). -/
theorem broker_single_ack_witness :
    (ackInCount (FanOutSequential.run 2 twoOkScripts) ≤ 1
      ∧ ackInCount (FanOutSequential.run 2 twoOkScripts) = 1
      ∧ ackInCount (FanOutSequential.run 1 oneClosedScripts) = 0
      ∧ (Retry.run 1 5 [DownRes.ok]).acks.length ≤ 1
      ∧ (Retry.run 1 5 [DownRes.ok]).acks.length = 1
      ∧ (RoundRobin.trace 2 [⟨3, 4⟩] RRTermination.viaInputClosed).countP RREv.isAckWrite = 0
      ∧ (RoundRobin.loop 2 0 [⟨3, 4⟩]).map Prod.snd = [⟨3, 4⟩]) := by
  have h := broker_single_ack 2 1 5 twoOkScripts [DownRes.ok] 2 [⟨3, 4⟩]
    RRTermination.viaInputClosed
  have h0 := broker_single_ack 1 1 5 oneClosedScripts [DownRes.ok] 2 [⟨3, 4⟩]
    RRTermination.viaInputClosed
  exact ⟨h.1, h.2.1 (fun k _ => by simp [twoOkScripts, OutScript.ok]),
    h0.2.2.1 ⟨0, by decide, by decide⟩,
    h.2.2.2.1, h.2.2.2.2.2.1 (Or.inl (by decide)),
    h.2.2.2.2.2.2.1, h.2.2.2.2.2.2.2⟩
